import Mathlib

/-!
Verification of the kalpavruksha backend (`backend/app.py`).

The repository is a Flask service with a single `/predict` endpoint that
runs a detection model and a classification model over an uploaded image
and aggregates their findings.  This file embeds the pure logic of that
endpoint: the class vocabularies, the per-model finding construction, the
maximum-confidence selection (Python's `max` with a key function), the
aggregation policy, and the guard checks at the top of the handler.
Confidences are embedded as rationals; the aggregation only compares
confidences, so the ordering-based properties carry over.
-/

namespace Kalpavruksha

/-- A single model finding, mirroring the dicts appended to
`all_detections` in `backend/app.py`: a class label (`'class'` key,
named `cls` here since `class` is a Lean keyword), a confidence score,
and the producing model tag (`'model'` key). -/
structure Finding where
  cls : String
  confidence : ℚ
  model : String
  deriving DecidableEq, Repr

/-- Detection vocabulary, `class_names_1` in `backend/app.py` line 57. -/
def class_names_1 : List String :=
  ["bud root dropping", "bud rot", "gray leaf spot", "leaf rot", "stembleeding"]

/-- Classification vocabulary, `class_names_2` in `backend/app.py` line 59. -/
def class_names_2 : List String :=
  ["caterpillars", "drying", "flaccidity", "healthy", "leaflet", "yellowing"]

/-- The detection loop (`backend/app.py` lines 82-94): one finding per
reported box, with class `class_names_1[cls_index]`, the box confidence,
and model tag `'detection'`.  A box is embedded as its
`(confidence, cls_index)` pair. -/
def detectionFindings (boxes : List (ℚ × Nat)) : List Finding :=
  boxes.map (fun b => ⟨class_names_1.getD b.2 "", b.1, "detection"⟩)

/-- The classification loop (`backend/app.py` lines 100-116): from the
zipped `(top5, top5conf)` pairs, append a finding exactly when its
confidence exceeds 0.1, with class `class_names_2[cls_index]` and model
tag `'classification'`. -/
def classifyFindings (top5 : List (Nat × ℚ)) : List Finding :=
  top5.filterMap (fun p =>
    if (1 : ℚ)/10 < p.2 then
      some ⟨class_names_2.getD p.1 "", p.2, "classification"⟩
    else none)

/-- Python `max(xs, key=lambda x: x['confidence'])` on the nonempty list
`x :: xs`: the running best is replaced only on a strictly larger key, so
the first element attaining the maximal confidence is returned. -/
def maxByConf (x : Finding) (xs : List Finding) : Finding :=
  xs.foldl (fun best y => if best.confidence < y.confidence then y else best) x

/-- The JSON body returned on the 200 path of `/predict`. -/
structure AggregateResult where
  prediction : String
  confidence : ℚ
  all_detections : List Finding
  total_diseases : Nat
  deriving DecidableEq, Repr

/-- The aggregation policy of `/predict` (`backend/app.py` lines 121-154):
filter out `'healthy'`; if non-healthy findings remain, predict the
maximum-confidence one and report the non-healthy count; else if any
findings exist, predict `'healthy'` with the overall maximum confidence;
else return the fixed `('healthy', 0.5)` fallback. -/
def aggregate (dets : List Finding) : AggregateResult :=
  match dets.filter (fun d => d.cls != "healthy"), dets with
  | b :: bs, _ =>
      ⟨(maxByConf b bs).cls, (maxByConf b bs).confidence, dets, (b :: bs).length⟩
  | [], a :: rest =>
      ⟨"healthy", (maxByConf a rest).confidence, dets, 0⟩
  | [], [] => ⟨"healthy", 1/2, [], 0⟩

/-- The per-request pipeline after image decode (`backend/app.py` lines
79-154): `all_detections` is built by the detection loop first, then the
classification loop, and the concatenated list is aggregated. -/
def predictPipeline (boxes : List (ℚ × Nat)) (top5 : List (Nat × ℚ)) : AggregateResult :=
  aggregate (detectionFindings boxes ++ classifyFindings top5)

/-- The request-shape facts read by the early checks of `/predict`:
whether the multipart form has a `'file'` field, and that file's name. -/
structure Request where
  hasFileField : Bool
  filename : String
  deriving DecidableEq, Repr

/-- Outcome of the early checks of `/predict`: an error response with a
status code and message, or proceed to decoding and inference. -/
inductive HandlerResult where
  | errorResp (status : Nat) (msg : String)
  | proceed
  deriving DecidableEq, Repr

/-- The guard sequence at the top of `/predict` (`backend/app.py` lines
62-72), in source order: both models missing is checked first (500), then
the missing `'file'` part (400), then the empty filename (400). -/
def handleChecks (model1Loaded model2Loaded : Bool) (req : Request) : HandlerResult :=
  if !model1Loaded && !model2Loaded then .errorResp 500 "Models not loaded"
  else if !req.hasFileField then .errorResp 400 "No file part"
  else if req.filename == "" then .errorResp 400 "No selected file"
  else .proceed

/-! ### Lemmas about the maximum-confidence selection -/

theorem maxByConf_cons (x y : Finding) (ys : List Finding) :
    maxByConf x (y :: ys) =
      maxByConf (if x.confidence < y.confidence then y else x) ys := rfl

theorem maxByConf_mem (xs : List Finding) : ∀ x, maxByConf x xs ∈ x :: xs := by
  induction xs with
  | nil => intro x; simp [maxByConf]
  | cons y ys ih =>
    intro x
    rw [maxByConf_cons]
    rcases List.mem_cons.mp (ih (if x.confidence < y.confidence then y else x)) with h | h
    · rw [h]
      split
      · exact List.mem_cons_of_mem _ (List.mem_cons_self _ _)
      · exact List.mem_cons_self _ _
    · exact List.mem_cons_of_mem _ (List.mem_cons_of_mem _ h)

theorem le_maxByConf (xs : List Finding) :
    ∀ x, ∀ y ∈ x :: xs, y.confidence ≤ (maxByConf x xs).confidence := by
  induction xs with
  | nil =>
    intro x y hy
    rcases List.mem_cons.mp hy with h | h
    · rw [h]; exact le_refl _
    · simp at h
  | cons z zs ih =>
    intro x y hy
    rw [maxByConf_cons]
    have hx : x.confidence ≤
        (if x.confidence < z.confidence then z else x).confidence := by
      split
      · exact le_of_lt (by assumption)
      · exact le_refl _
    have hz : z.confidence ≤
        (if x.confidence < z.confidence then z else x).confidence := by
      split
      · exact le_refl _
      · exact le_of_not_lt (by assumption)
    have hw := ih (if x.confidence < z.confidence then z else x)
    rcases List.mem_cons.mp hy with h | h
    · rw [h]
      exact le_trans hx (hw _ (List.mem_cons_self _ _))
    · rcases List.mem_cons.mp h with h1 | h1
      · rw [h1]
        exact le_trans hz (hw _ (List.mem_cons_self _ _))
      · exact hw y (List.mem_cons_of_mem _ h1)

theorem maxByConf_of_le (xs : List Finding) :
    ∀ x, (∀ y ∈ xs, y.confidence ≤ x.confidence) → maxByConf x xs = x := by
  induction xs with
  | nil => intro x _; rfl
  | cons z zs ih =>
    intro x h
    have hc : ¬ x.confidence < z.confidence :=
      not_lt_of_le (h z (List.mem_cons_self _ _))
    rw [maxByConf_cons, if_neg hc]
    exact ih x (fun y hy => h y (List.mem_cons_of_mem _ hy))

theorem maxByConf_append_lt (l₂ : List Finding) (e : Finding)
    (h₂ : ∀ y ∈ l₂, y.confidence ≤ e.confidence) :
    ∀ (l₁ : List Finding) (x : Finding), x.confidence < e.confidence →
      (∀ y ∈ l₁, y.confidence < e.confidence) →
      maxByConf x (l₁ ++ e :: l₂) = e := by
  intro l₁
  induction l₁ with
  | nil =>
    intro x hx _
    rw [List.nil_append, maxByConf_cons, if_pos hx]
    exact maxByConf_of_le l₂ e h₂
  | cons a l₁ ih =>
    intro x hx h₁
    have ha : a.confidence < e.confidence := h₁ a (List.mem_cons_self _ _)
    rw [List.cons_append, maxByConf_cons]
    split
    · exact ih a ha (fun y hy => h₁ y (List.mem_cons_of_mem _ hy))
    · exact ih x hx (fun y hy => h₁ y (List.mem_cons_of_mem _ hy))

/-- On a list decomposed around its first maximum (strictly larger than
everything before it, at least as large as everything after it), the
Python `max` selection returns exactly that element. -/
theorem maxByConf_first (b : Finding) (bs l₁ l₂ : List Finding) (e : Finding)
    (hdec : b :: bs = l₁ ++ e :: l₂)
    (h₁ : ∀ y ∈ l₁, y.confidence < e.confidence)
    (h₂ : ∀ y ∈ l₂, y.confidence ≤ e.confidence) :
    maxByConf b bs = e := by
  cases l₁ with
  | nil =>
    rw [List.nil_append] at hdec
    injection hdec with hb hbs
    rw [hb, hbs]
    exact maxByConf_of_le l₂ e h₂
  | cons a l₁ =>
    rw [List.cons_append] at hdec
    injection hdec with hb hbs
    rw [hb, hbs]
    exact maxByConf_append_lt l₂ e h₂ l₁ a (h₁ a (List.mem_cons_self _ _))
      (fun y hy => h₁ y (List.mem_cons_of_mem _ hy))

/-! ### Branch reduction lemmas for the aggregation -/

theorem aggregate_pos (dets : List Finding) (b : Finding) (bs : List Finding)
    (h : dets.filter (fun d => d.cls != "healthy") = b :: bs) :
    aggregate dets =
      ⟨(maxByConf b bs).cls, (maxByConf b bs).confidence, dets, (b :: bs).length⟩ := by
  unfold aggregate
  rw [h]

theorem aggregate_only_healthy (a : Finding) (rest : List Finding)
    (h : (a :: rest).filter (fun d => d.cls != "healthy") = []) :
    aggregate (a :: rest) =
      ⟨"healthy", (maxByConf a rest).confidence, a :: rest, 0⟩ := by
  unfold aggregate
  rw [h]

theorem aggregate_all_detections (dets : List Finding) :
    (aggregate dets).all_detections = dets := by
  cases hnh : dets.filter (fun d => d.cls != "healthy") with
  | cons b bs => rw [aggregate_pos dets b bs hnh]
  | nil =>
    cases dets with
    | nil => rfl
    | cons a rest => rw [aggregate_only_healthy a rest hnh]

theorem aggregate_total (dets : List Finding) :
    (aggregate dets).total_diseases =
      (dets.filter (fun d => d.cls != "healthy")).length := by
  cases hnh : dets.filter (fun d => d.cls != "healthy") with
  | cons b bs => rw [aggregate_pos dets b bs hnh]
  | nil =>
    cases dets with
    | nil => rfl
    | cons a rest => rw [aggregate_only_healthy a rest hnh]; rfl

/-! ### Concrete sample inputs used by witnesses -/

/-- A finding list with one non-healthy and one healthy entry. -/
def sampleMixed : List Finding :=
  [⟨"bud rot", 4, "detection"⟩, ⟨"healthy", 9, "classification"⟩]

/-- A finding list whose two non-healthy entries tie on confidence. -/
def sampleTie : List Finding :=
  [⟨"bud rot", 2, "detection"⟩, ⟨"leaf rot", 2, "classification"⟩]

/-- A finding list containing only healthy entries. -/
def sampleHealthy : List Finding :=
  [⟨"healthy", 3, "classification"⟩, ⟨"healthy", 7, "classification"⟩]

/-! ### Claim theorems -/

/-- C1: for every finding list containing at least one non-"healthy" entry,
the aggregation returns prediction equal to the class of a
maximum-confidence non-healthy entry, confidence equal to that entry's
confidence, and total_diseases equal to the number of non-healthy
entries. -/
theorem C1_max_non_healthy (dets : List Finding)
    (h : dets.filter (fun d => d.cls != "healthy") ≠ []) :
    ∃ e ∈ dets.filter (fun d => d.cls != "healthy"),
      (∀ y ∈ dets.filter (fun d => d.cls != "healthy"),
        y.confidence ≤ e.confidence) ∧
      (aggregate dets).prediction = e.cls ∧
      (aggregate dets).confidence = e.confidence ∧
      (aggregate dets).total_diseases =
        (dets.filter (fun d => d.cls != "healthy")).length := by
  obtain ⟨b, bs, hnh⟩ := List.exists_cons_of_ne_nil h
  refine ⟨maxByConf b bs, ?_, ?_, ?_, ?_, ?_⟩
  · rw [hnh]; exact maxByConf_mem bs b
  · rw [hnh]; exact le_maxByConf bs b
  · rw [aggregate_pos dets b bs hnh]
  · rw [aggregate_pos dets b bs hnh]
  · exact aggregate_total dets

/-- C1 witness: instantiation of the non-healthy maximum property on a
concrete mixed finding list. -/
theorem C1_max_non_healthy_witness :
    ∃ e ∈ sampleMixed.filter (fun d => d.cls != "healthy"),
      (∀ y ∈ sampleMixed.filter (fun d => d.cls != "healthy"),
        y.confidence ≤ e.confidence) ∧
      (aggregate sampleMixed).prediction = e.cls ∧
      (aggregate sampleMixed).confidence = e.confidence ∧
      (aggregate sampleMixed).total_diseases =
        (sampleMixed.filter (fun d => d.cls != "healthy")).length :=
  C1_max_non_healthy sampleMixed (by decide)

/-- C3: on every success branch, the returned total_diseases equals the
count of entries in the returned all_detections whose class is not
"healthy". -/
theorem C3_total_diseases_count (dets : List Finding) :
    (aggregate dets).total_diseases =
      ((aggregate dets).all_detections.filter
        (fun d => d.cls != "healthy")).length := by
  rw [aggregate_all_detections, aggregate_total]

/-- C5: on the empty finding list the aggregation output is exactly
prediction "healthy", confidence 0.5, empty all_detections and
total_diseases 0. -/
theorem C5_empty_fallback :
    aggregate [] = ⟨"healthy", 1/2, [], 0⟩ := rfl

/-- C8: on every branch the response's all_detections equals the full
concatenated input list, detection findings first, then classification
findings, unchanged by the aggregation. -/
theorem C8_all_detections_frame (boxes : List (ℚ × Nat))
    (top5 : List (Nat × ℚ)) :
    (predictPipeline boxes top5).all_detections =
      detectionFindings boxes ++ classifyFindings top5 :=
  aggregate_all_detections _

/-- C2: the returned prediction is a class label present in
all_detections, except when all_detections is empty, in which case the
prediction is "healthy" with confidence 0.5. -/
theorem C2_prediction_present (dets : List Finding) :
    ((aggregate dets).all_detections ≠ [] →
      (aggregate dets).prediction ∈
        (aggregate dets).all_detections.map Finding.cls) ∧
    ((aggregate dets).all_detections = [] →
      (aggregate dets).prediction = "healthy" ∧
      (aggregate dets).confidence = 1/2) := by
  rw [aggregate_all_detections]
  cases hnh : dets.filter (fun d => d.cls != "healthy") with
  | cons b bs =>
    rw [aggregate_pos dets b bs hnh]
    constructor
    · intro _
      have hmem : maxByConf b bs ∈ dets := by
        have h1 := maxByConf_mem bs b
        rw [← hnh] at h1
        exact (List.mem_filter.mp h1).1
      exact List.mem_map_of_mem Finding.cls hmem
    · intro hnil
      rw [hnil] at hnh
      simp at hnh
  | nil =>
    cases dets with
    | nil => exact ⟨fun h => absurd rfl h, fun _ => ⟨rfl, rfl⟩⟩
    | cons a rest =>
      rw [aggregate_only_healthy a rest hnh]
      constructor
      · intro _
        have ha : a.cls = "healthy" := by
          have h1 := List.filter_eq_nil_iff.mp hnh a (List.mem_cons_self _ _)
          simpa using h1
        rw [show ("healthy" : String) = Finding.cls a from ha.symm]
        exact List.mem_map_of_mem Finding.cls (List.mem_cons_self _ _)
      · intro hnil
        simp at hnil

/-- C2 witness: instantiation of the presence invariant on a concrete
nonempty finding list. -/
theorem C2_prediction_present_witness :
    (aggregate sampleMixed).prediction ∈
      (aggregate sampleMixed).all_detections.map Finding.cls :=
  (C2_prediction_present sampleMixed).1 (by decide)

/-- C4: for every nonempty finding list all of whose entries are
"healthy", the aggregation predicts "healthy" with confidence equal to
the maximum confidence over all entries (an attained upper bound) and
total_diseases 0. -/
theorem C4_all_healthy (dets : List Finding) (hne : dets ≠ [])
    (hall : ∀ d ∈ dets, d.cls = "healthy") :
    (aggregate dets).prediction = "healthy" ∧
    (∀ d ∈ dets, d.confidence ≤ (aggregate dets).confidence) ∧
    (aggregate dets).confidence ∈ dets.map Finding.confidence ∧
    (aggregate dets).total_diseases = 0 := by
  obtain ⟨a, rest, rfl⟩ := List.exists_cons_of_ne_nil hne
  have hnh : (a :: rest).filter (fun d => d.cls != "healthy") = [] := by
    rw [List.filter_eq_nil_iff]
    intro d hd
    simp [hall d hd]
  rw [aggregate_only_healthy a rest hnh]
  refine ⟨rfl, ?_, ?_, rfl⟩
  · intro d hd
    exact le_maxByConf rest a d hd
  · exact List.mem_map_of_mem Finding.confidence (maxByConf_mem rest a)

/-- C4 witness: instantiation of the all-healthy branch on a concrete
finding list with two healthy entries. -/
theorem C4_all_healthy_witness :
    (aggregate sampleHealthy).prediction = "healthy" ∧
    (∀ d ∈ sampleHealthy, d.confidence ≤ (aggregate sampleHealthy).confidence) ∧
    (aggregate sampleHealthy).confidence ∈ sampleHealthy.map Finding.confidence ∧
    (aggregate sampleHealthy).total_diseases = 0 :=
  C4_all_healthy sampleHealthy (by decide) (by decide)

/-- C6: when two or more non-healthy entries share the maximum
confidence, the prediction is the class of the first such
maximum-confidence entry in list order (the decomposition hypotheses
characterise `e` as the first maximum of the non-healthy sublist, and
the tie hypothesis demands a later entry with the same confidence). -/
theorem C6_tie_first (dets l₁ l₂ : List Finding) (e : Finding)
    (hdec : dets.filter (fun d => d.cls != "healthy") = l₁ ++ e :: l₂)
    (h₁ : ∀ y ∈ l₁, y.confidence < e.confidence)
    (h₂ : ∀ y ∈ l₂, y.confidence ≤ e.confidence)
    (_htie : ∃ y ∈ l₂, y.confidence = e.confidence) :
    (aggregate dets).prediction = e.cls ∧
    (aggregate dets).confidence = e.confidence := by
  have hne : dets.filter (fun d => d.cls != "healthy") ≠ [] := by
    rw [hdec]
    simp
  obtain ⟨b, bs, hnh⟩ := List.exists_cons_of_ne_nil hne
  rw [hnh] at hdec
  have hmax := maxByConf_first b bs l₁ l₂ e hdec h₁ h₂
  rw [aggregate_pos dets b bs hnh, hmax]
  exact ⟨rfl, rfl⟩

/-- C6 witness: instantiation of the tie-break property on a concrete
list whose two non-healthy findings share confidence 2; the first one
("bud rot", the detection finding) wins. -/
theorem C6_tie_first_witness :
    (aggregate sampleTie).prediction = "bud rot" ∧
    (aggregate sampleTie).confidence = 2 :=
  C6_tie_first sampleTie [] [⟨"leaf rot", 2, "classification"⟩]
    ⟨"bud rot", 2, "detection"⟩ (by decide) (by decide) (by decide) (by decide)

/-- C7: at most 5 classification findings enter all_detections, each with
confidence strictly greater than 0.1; equivalently a classification
finding with confidence at most 0.1 never appears. -/
theorem C7_classification_threshold (boxes : List (ℚ × Nat))
    (top5 : List (Nat × ℚ)) (h5 : top5.length ≤ 5) :
    ((predictPipeline boxes top5).all_detections.filter
        (fun f => f.model == "classification")).length ≤ 5 ∧
    (∀ f ∈ (predictPipeline boxes top5).all_detections,
      f.model = "classification" → (1 : ℚ)/10 < f.confidence) := by
  have hall : (predictPipeline boxes top5).all_detections =
      detectionFindings boxes ++ classifyFindings top5 :=
    aggregate_all_detections _
  rw [hall]
  constructor
  · rw [List.filter_append]
    have hdet : (detectionFindings boxes).filter
        (fun f => f.model == "classification") = [] := by
      rw [List.filter_eq_nil_iff]
      intro f hf
      simp only [detectionFindings, List.mem_map] at hf
      obtain ⟨b, hb, rfl⟩ := hf
      simp
    rw [hdet, List.nil_append]
    exact le_trans (le_trans (List.length_filter_le _ _)
      (List.length_filterMap_le _ _)) h5
  · intro f hf hcls
    rcases List.mem_append.mp hf with h | h
    · simp only [detectionFindings, List.mem_map] at h
      obtain ⟨b, hb, rfl⟩ := h
      simp at hcls
    · simp only [classifyFindings, List.mem_filterMap] at h
      obtain ⟨p, hp, hsome⟩ := h
      split at hsome
      · injection hsome with hf2
        rw [← hf2]
        assumption
      · exact absurd hsome (by simp)

/-- C7 witness: instantiation of the threshold property on a concrete
top-5 output containing one above-threshold and one below-threshold
class. -/
theorem C7_classification_threshold_witness :
    ((predictPipeline [] [(0, 2), (3, 0)]).all_detections.filter
        (fun f => f.model == "classification")).length ≤ 5 ∧
    (∀ f ∈ (predictPipeline [] [(0, 2), (3, 0)]).all_detections,
      f.model = "classification" → (1 : ℚ)/10 < f.confidence) :=
  C7_classification_threshold [] [(0, 2), (3, 0)] (by decide)

/-- C9 counterexample: a request with no 'file' field handled while
neither model is loaded gets 500 "Models not loaded", not the 400
"No file part" the claim demands for every request lacking the field
(the model check precedes the file check in the source). -/
theorem C9_counterexample :
    handleChecks false false ⟨false, ""⟩ = .errorResp 500 "Models not loaded" ∧
    ¬ handleChecks false false ⟨false, ""⟩ = .errorResp 400 "No file part" := by
  constructor
  · rfl
  · intro h
    cases h

/-- C9 amended: provided at least one model is loaded, a request lacking
the 'file' field gets 400 "No file part" and a request with a file but an
empty filename gets 400 "No selected file"; when neither model is loaded,
every request gets 500 "Models not loaded". In each case an error
response, not `proceed`, is returned, so no inference is attempted. -/
theorem C9_guard_checks (m1 m2 : Bool) (req : Request) :
    (m1 = true ∨ m2 = true → req.hasFileField = false →
      handleChecks m1 m2 req = .errorResp 400 "No file part") ∧
    (m1 = true ∨ m2 = true → req.hasFileField = true → req.filename = "" →
      handleChecks m1 m2 req = .errorResp 400 "No selected file") ∧
    (m1 = false → m2 = false →
      handleChecks m1 m2 req = .errorResp 500 "Models not loaded") := by
  obtain ⟨hasF, fn⟩ := req
  refine ⟨?_, ?_, ?_⟩
  · rintro hm rfl
    rcases hm with rfl | rfl <;> simp [handleChecks]
  · rintro hm rfl rfl
    rcases hm with rfl | rfl <;> simp [handleChecks]
  · rintro rfl rfl
    simp [handleChecks]

/-- C9 witness: instantiation of the amended guard property for a request
lacking the 'file' field while the detection model is loaded. -/
theorem C9_guard_checks_witness :
    handleChecks true false ⟨false, "leaf.jpg"⟩ =
      .errorResp 400 "No file part" :=
  (C9_guard_checks true false ⟨false, "leaf.jpg"⟩).1 (Or.inl rfl) rfl

/-- C10: the detection vocabulary has five classes, none of which is
"healthy"; hence every detection finding carries a vocabulary class that
is non-healthy, and total_diseases is at least the number of detection
findings. -/
theorem C10_detection_non_healthy (boxes : List (ℚ × Nat))
    (top5 : List (Nat × ℚ))
    (hidx : ∀ p ∈ boxes, p.2 < class_names_1.length) :
    class_names_1.length = 5 ∧
    "healthy" ∉ class_names_1 ∧
    (∀ f ∈ detectionFindings boxes, f.cls ∈ class_names_1 ∧ f.cls ≠ "healthy") ∧
    (detectionFindings boxes).length ≤
      (predictPipeline boxes top5).total_diseases := by
  have hvocab : "healthy" ∉ class_names_1 := by decide
  have hmem : ∀ f ∈ detectionFindings boxes, f.cls ∈ class_names_1 := by
    intro f hf
    simp only [detectionFindings, List.mem_map] at hf
    obtain ⟨b, hb, rfl⟩ := hf
    have h5 : b.2 < 5 := by simpa [class_names_1] using hidx b hb
    have hcase : b.2 = 0 ∨ b.2 = 1 ∨ b.2 = 2 ∨ b.2 = 3 ∨ b.2 = 4 := by omega
    rcases hcase with h | h | h | h | h <;> rw [h] <;> simp [class_names_1]
  have hnonh : ∀ f ∈ detectionFindings boxes, f.cls ≠ "healthy" := by
    intro f hf heq
    exact hvocab (heq ▸ hmem f hf)
  refine ⟨rfl, hvocab, fun f hf => ⟨hmem f hf, hnonh f hf⟩, ?_⟩
  have htot : (predictPipeline boxes top5).total_diseases =
      ((detectionFindings boxes ++ classifyFindings top5).filter
        (fun d => d.cls != "healthy")).length := aggregate_total _
  rw [htot, List.filter_append, List.length_append]
  have hfd : (detectionFindings boxes).filter
      (fun d => d.cls != "healthy") = detectionFindings boxes := by
    rw [List.filter_eq_self]
    intro f hf
    simpa using hnonh f hf
  rw [hfd]
  exact Nat.le_add_right _ _

/-- C10 witness: instantiation of the detection-vocabulary property on a
single detection box with class index 1 ("bud rot"). -/
theorem C10_detection_non_healthy_witness :
    class_names_1.length = 5 ∧
    "healthy" ∉ class_names_1 ∧
    (∀ f ∈ detectionFindings [((2 : ℚ), 1)],
      f.cls ∈ class_names_1 ∧ f.cls ≠ "healthy") ∧
    (detectionFindings [((2 : ℚ), 1)]).length ≤
      (predictPipeline [((2 : ℚ), 1)] []).total_diseases :=
  C10_detection_non_healthy [((2 : ℚ), 1)] [] (by decide)

end Kalpavruksha
